import Mathlib

set_option maxHeartbeats 1000000

set_option maxRecDepth 100000

/-!
Shallow embedding of src/ITBase64.c (repository Base64-Additions).

Modelling conventions:
- C uint8_t bytes are Nat values (all stored values provably fit in 8 bits,
  since every value written comes out of 6-bit masks and shifts);
- C strings are List Char;
- ITBase64EncodedStringCreate returns the encoded characters (the C char
  buffer without its trailing NUL terminator); the reported *stringLength
  is the length of that list;
- ITBase64DecodedDataCreate returns a pair: first component some bytes on
  success and none when the C function returns NULL (the failure signal),
  second component the value stored into *dataLength.
-/

/-- The C preprocessor definition isWhiteSpace, ITBase64.c line 38:
space, tab, carriage return or newline. -/
def isWhiteSpace (c : Char) : Bool :=
  c == ' ' || c == '\t' || c == '\r' || c == '\n'

/-- ITBase64AdditionsEncodingTable, ITBase64.c line 40: the 64-symbol
Base64 alphabet. -/
def ITBase64AdditionsEncodingTable : List Char :=
  "ABCDEFGHIJKLMNOPQRSTUVWXYZabcdefghijklmnopqrstuvwxyz0123456789+/".toList

/-- Table lookup ITBase64AdditionsEncodingTable[i].  Every index the encoder
produces is below 64 because of the 6-bit masks, so the getD default is
never reached. -/
def encChar (i : Nat) : Char :=
  ITBase64AdditionsEncodingTable.getD i 'A'

/-- encodeWord, ITBase64.c lines 56-76: Base64 encodes the 3 given bytes
into 4 characters.  When lastWord is set, a produced tail character equal
to 'A' (the table symbol of the 6-bit value 0) is replaced by '=': the C
code compares the produced output characters with 'A' to decide padding,
it does not receive the count of real bytes. -/
def encodeWord (b0 b1 b2 : Nat) (lastWord : Bool) : List Char :=
  let d0 := encChar ((b0 &&& 0xFC) >>> 2)
  let d1 := encChar (((b0 &&& 0x03) <<< 4) ||| ((b1 &&& 0xF0) >>> 4))
  let d2 := encChar (((b1 &&& 0x0F) <<< 2) ||| ((b2 &&& 0xC0) >>> 6))
  if d2 = 'A' ∧ lastWord then
    [d0, d1, '=', '=']
  else
    let d3 := encChar (b2 &&& 0x3F)
    if d3 = 'A' ∧ lastWord then [d0, d1, d2, '=']
    else [d0, d1, d2, d3]

/-- charToByte, ITBase64.c lines 81-97: converts a Base64 character to its
6-bit value; returns 0xff on error.  Note that '=' is mapped to 0, not to
the 0xff sentinel.  Comparisons are on the ASCII codes, as in C. -/
def charToByte (c : Char) : Nat :=
  if 'A'.toNat ≤ c.toNat ∧ c.toNat ≤ 'Z'.toNat then c.toNat - 'A'.toNat
  else if 'a'.toNat ≤ c.toNat ∧ c.toNat ≤ 'z'.toNat then c.toNat - 'a'.toNat + 26
  else if '0'.toNat ≤ c.toNat ∧ c.toNat ≤ '9'.toNat then c.toNat - '0'.toNat + 52
  else if c = '+' then 62
  else if c = '/' then 63
  else if c = '=' then 0
  else 0xff

/-- decodeWord, ITBase64.c lines 102-133: decodes 4 Base64 characters to at
most 3 bytes.  The returned list holds exactly the bytes the C function
reports as decoded (its return value is the length); the empty list is the
error return 0.  The nested ifs mirror the early returns of the C code. -/
def decodeWord (c0 c1 c2 c3 : Char) : List Nat :=
  if charToByte c0 = 0xff ∨ charToByte c1 = 0xff then []
  else if c2 = '=' then
    [(charToByte c0 <<< 2) ||| ((charToByte c1 &&& 0x30) >>> 4)]
  else if charToByte c2 = 0xff then []
  else if c3 = '=' then
    [(charToByte c0 <<< 2) ||| ((charToByte c1 &&& 0x30) >>> 4),
     ((charToByte c1 &&& 0x0f) <<< 4) ||| ((charToByte c2 &&& 0x3c) >>> 2)]
  else if charToByte c3 = 0xff then []
  else
    [(charToByte c0 <<< 2) ||| ((charToByte c1 &&& 0x30) >>> 4),
     ((charToByte c1 &&& 0x0f) <<< 4) ||| ((charToByte c2 &&& 0x3c) >>> 2),
     ((charToByte c2 &&& 0x03) <<< 6) ||| charToByte c3]

/-- whiteSpaceFreeStringCreate, ITBase64.c lines 138-152: removes all
whitespace characters from the string, keeping the rest in order. -/
def whiteSpaceFreeStringCreate (s : List Char) : List Char :=
  s.filter (fun c => !isWhiteSpace c)

/-- ITBase64EncodedStringCreate, ITBase64.c lines 154-189: full 3-byte
groups (srcIndex < effLen) are encoded with lastWord = 0; a remaining
group of 1 or 2 bytes (restLen != 0) is zero-padded into restWord and
encoded with lastWord = 1.  A buffer of length divisible by 3 has no rest
group, so its last full group is also encoded with lastWord = 0. -/
def ITBase64EncodedStringCreate : List Nat → List Char
  | b0 :: b1 :: b2 :: rest => encodeWord b0 b1 b2 false ++ ITBase64EncodedStringCreate rest
  | [b0] => encodeWord b0 0 0 true
  | [b0, b1] => encodeWord b0 b1 0 true
  | [] => []

/-- The while loop of ITBase64DecodedDataCreate, ITBase64.c lines 206-215,
together with lines 217-233: each 4-character group is decoded by
decodeWord; a group decoding to 3 bytes continues the loop, a group
decoding to 0 bytes is the error exit (NULL), a group decoding to 1 or 2
bytes breaks the loop and the bytes accumulated so far plus that short
word are returned as a success, ignoring any remaining characters.
Reaching the end of the characters with every group full is a success with
the accumulated bytes.  The input length is a multiple of 4 when called
(checked by the caller), so the length-1..3 fallback is never reached
there. -/
def decodeLoop : List Char → Option (List Nat)
  | c0 :: c1 :: c2 :: c3 :: rest =>
    if (decodeWord c0 c1 c2 c3).length = 3 then
      match decodeLoop rest with
      | none => none
      | some bs => some (decodeWord c0 c1 c2 c3 ++ bs)
    else if (decodeWord c0 c1 c2 c3).length = 0 then none
    else some (decodeWord c0 c1 c2 c3)
  | [] => some []
  | _ => none

/-- ITBase64DecodedDataCreate, ITBase64.c lines 191-238.  The whitespace
free copy of the input is decoded.  A length that is not a multiple of 4
is the failure (NULL, *dataLength = 0).  When the stripped length is 0 the
while loop never runs, bytesDecoded keeps its initial value 0 and the
bytesDecoded == 0 error branch is taken: NULL with *dataLength = 0.
Otherwise the loop of decodeLoop runs; on its error exit the C frees the
buffer and returns NULL with *dataLength = 0, on success *dataLength is
the number of decoded bytes. -/
def ITBase64DecodedDataCreate (s : List Char) : Option (List Nat) × Nat :=
  if (whiteSpaceFreeStringCreate s).length % 4 ≠ 0 then (none, 0)
  else if whiteSpaceFreeStringCreate s = [] then (none, 0)
  else
    match decodeLoop (whiteSpaceFreeStringCreate s) with
    | none => (none, 0)
    | some bs => (some bs, bs.length)

/-- The word decoder exactly as the specification words it: byte0 is
(v0 <<< 2) ||| (v1 >>> 4), byte1 is ((v1 &&& 0x0F) <<< 4) ||| (v2 >>> 2),
byte2 is ((v2 &&& 0x03) <<< 6) ||| v3, where the v are the alphabet
inverse values; a character outside the alphabet and distinct from the
padding character at positions 0 or 1 gives 0 bytes, a padding character
at position 2 gives 1 byte without the 4th character being examined, an
invalid character at position 2 gives 0 bytes, a padding character at
position 3 gives 2 bytes, an invalid character at position 3 gives 0
bytes, and otherwise 3 bytes are produced.  This definition is compared
with decodeWord, the embedding of the C code. -/
def decodeWordSpec (c0 c1 c2 c3 : Char) : List Nat :=
  if charToByte c0 = 0xff ∨ charToByte c1 = 0xff then []
  else if c2 = '=' then
    [(charToByte c0 <<< 2) ||| (charToByte c1 >>> 4)]
  else if charToByte c2 = 0xff then []
  else if c3 = '=' then
    [(charToByte c0 <<< 2) ||| (charToByte c1 >>> 4),
     ((charToByte c1 &&& 0x0F) <<< 4) ||| (charToByte c2 >>> 2)]
  else if charToByte c3 = 0xff then []
  else
    [(charToByte c0 <<< 2) ||| (charToByte c1 >>> 4),
     ((charToByte c1 &&& 0x0F) <<< 4) ||| (charToByte c2 >>> 2),
     ((charToByte c2 &&& 0x03) <<< 6) ||| charToByte c3]

/-- The bytes produced by a run of 4-character groups, each decoded by
decodeWord, concatenated in order.  Used to describe the output the
decode loop has accumulated before a given group. -/
def groupBytes : List Char → List Nat
  | c0 :: c1 :: c2 :: c3 :: rest => decodeWord c0 c1 c2 c3 ++ groupBytes rest
  | _ => []

/-- Holds when the character list splits into 4-character groups that each
decode to exactly 3 bytes, i.e. the decode loop passes through all of them
without breaking. -/
def allGroups3 : List Char → Bool
  | [] => true
  | c0 :: c1 :: c2 :: c3 :: rest => (decodeWord c0 c1 c2 c3).length == 3 && allGroups3 rest
  | _ => false

/-- InsertWS t u holds when u is obtained from t by inserting whitespace
characters (in the sense of isWhiteSpace) at arbitrary positions. -/
inductive InsertWS : List Char → List Char → Prop
  | nil : InsertWS [] []
  | keep (c : Char) {s t : List Char} : InsertWS s t → InsertWS (c :: s) (c :: t)
  | ws (c : Char) {s t : List Char} : isWhiteSpace c = true → InsertWS s t →
      InsertWS s (c :: t)

/-- Helper: every encodeWord output has exactly 4 characters. -/
theorem encodeWord_length (b0 b1 b2 : Nat) (lastWord : Bool) :
    (encodeWord b0 b1 b2 lastWord).length = 4 := by
  simp only [encodeWord]
  split_ifs <;> rfl

/-- Helper: a charToByte value other than the 0xff sentinel is a 6-bit
value. -/
theorem charToByte_lt (c : Char) (h : charToByte c ≠ 0xff) : charToByte c < 64 := by
  have hA : 'A'.toNat = 65 := rfl
  have hZ : 'Z'.toNat = 90 := rfl
  have ha : 'a'.toNat = 97 := rfl
  have hz : 'z'.toNat = 122 := rfl
  have h0 : '0'.toNat = 48 := rfl
  have h9 : '9'.toNat = 57 := rfl
  unfold charToByte at h ⊢
  split_ifs at h ⊢ <;> omega

/-- Helper: for a 6-bit value the 0x30 mask before the right shift by 4 is
redundant. -/
theorem and48_shift (v : Nat) (h : v < 64) : (v &&& 0x30) >>> 4 = v >>> 4 := by
  have key : ∀ w < 64, (w &&& 0x30) >>> 4 = w >>> 4 := by decide
  exact key v h

/-- Helper: for a 6-bit value the 0x3c mask before the right shift by 2 is
redundant. -/
theorem and60_shift (v : Nat) (h : v < 64) : (v &&& 0x3c) >>> 2 = v >>> 2 := by
  have key : ∀ w < 64, (w &&& 0x3c) >>> 2 = w >>> 2 := by decide
  exact key v h

/-- Helper: a list all whose groups decode to 3 bytes has length divisible
by 4. -/
theorem allGroups3_mod (g : List Char) (h : allGroups3 g = true) : g.length % 4 = 0 := by
  induction g using allGroups3.induct with
  | case1 => rfl
  | case2 c0 c1 c2 c3 rest ih =>
      simp only [allGroups3, Bool.and_eq_true, beq_iff_eq] at h
      have hr := ih h.2
      simp only [List.length_cons]
      omega
  | case3 g hne h4 => simp [allGroups3] at h

/-- Helper: the decode loop on full groups followed by a short group stops
at the short group and succeeds with the accumulated bytes plus the short
word, whatever follows. -/
theorem decodeLoop_append_short (g : List Char) (c0 c1 c2 c3 : Char) (rest : List Char)
    (hg : allGroups3 g = true)
    (h1 : 0 < (decodeWord c0 c1 c2 c3).length)
    (h3 : (decodeWord c0 c1 c2 c3).length < 3) :
    decodeLoop (g ++ c0 :: c1 :: c2 :: c3 :: rest) =
      some (groupBytes g ++ decodeWord c0 c1 c2 c3) := by
  induction g using allGroups3.induct with
  | case1 =>
      simp only [List.nil_append, decodeLoop, groupBytes]
      rw [if_neg (by omega), if_neg (by omega)]
  | case2 p0 p1 p2 p3 ps ih =>
      simp only [allGroups3, Bool.and_eq_true, beq_iff_eq] at hg
      simp only [List.cons_append, decodeLoop, List.append_eq]
      rw [if_pos hg.1, ih hg.2]
      simp [groupBytes, List.append_assoc]
  | case3 g hne h4 => simp [allGroups3] at hg

/-- Helper: the decode loop on full groups followed by a group decoding to
0 bytes fails, whatever follows. -/
theorem decodeLoop_append_none (g : List Char) (c0 c1 c2 c3 : Char) (rest : List Char)
    (hg : allGroups3 g = true)
    (h0 : decodeWord c0 c1 c2 c3 = []) :
    decodeLoop (g ++ c0 :: c1 :: c2 :: c3 :: rest) = none := by
  induction g using allGroups3.induct with
  | case1 =>
      simp only [List.nil_append, decodeLoop, h0]
      rw [if_neg (by simp), if_pos (by simp)]
  | case2 p0 p1 p2 p3 ps ih =>
      simp only [allGroups3, Bool.and_eq_true, beq_iff_eq] at hg
      simp only [List.cons_append, decodeLoop, List.append_eq]
      rw [if_pos hg.1, ih hg.2]
  | case3 g hne h4 => simp [allGroups3] at hg


/-- Helper: inserting whitespace does not change the whitespace free copy
of a string. -/
theorem insertWS_strip {s t : List Char} (h : InsertWS s t) :
    whiteSpaceFreeStringCreate t = whiteSpaceFreeStringCreate s := by
  induction h with
  | nil => rfl
  | keep c _ ih =>
      simp only [whiteSpaceFreeStringCreate, List.filter_cons] at ih ⊢
      rw [ih]
  | ws c hws _ ih =>
      simp [whiteSpaceFreeStringCreate, List.filter_cons, hws] at ih ⊢
      exact ih

/-- C1: the claim states decode(encode(b)) == (b, len(b)) for every byte
buffer b; the code violates it.  Encoding [0x00, 0x00] gives the text AA==
because encodeWord decides padding by comparing the produced 3rd output
character with 'A', so a 2-byte final group whose second byte has a zero
low nibble is padded as if it had only 1 byte; decoding AA== then returns
the single byte 0x00 with length 1, losing the second byte.  The empty
buffer also fails to round trip: it encodes to the empty text, whose
decode is the failure signal (none, 0) rather than (some [], 0). -/
theorem encode_decode_roundtrip_fails_C1 :
    ITBase64EncodedStringCreate [0, 0] = "AA==".toList ∧
    ITBase64DecodedDataCreate (ITBase64EncodedStringCreate [0, 0]) = (some [0], 1) ∧
    ITBase64DecodedDataCreate (ITBase64EncodedStringCreate []) = (none, 0) := by
  decide

/-- C2 counterexample: the claim states that a text of two or more groups
with a padding group before the last one fails to decode; in fact
decoding TQ==TWFu, where the group TQ== is followed by more data, is a
success that returns the single byte 0x4D and ignores the rest. -/
theorem early_padding_accepted_C2_cex :
    ITBase64DecodedDataCreate "TQ==TWFu".toList = (some [0x4D], 1) ∧
    (ITBase64DecodedDataCreate "TQ==TWFu".toList).1 ≠ none := by decide

/-- C2 amended: when the whitespace-stripped text splits into full groups
(each decoding to 3 bytes) followed by a group decoding to 1 or 2 bytes
(early padding) followed by any remaining data of length divisible by 4,
the decoder does not fail: it stops at the short group and returns success
with the bytes of the full groups plus the bytes of the short group,
ignoring everything after it. -/
theorem early_padding_truncates_C2_amended (s g : List Char) (c0 c1 c2 c3 : Char)
    (rest : List Char)
    (hsplit : whiteSpaceFreeStringCreate s = g ++ c0 :: c1 :: c2 :: c3 :: rest)
    (hg : allGroups3 g = true)
    (hrest : rest.length % 4 = 0)
    (h1 : 0 < (decodeWord c0 c1 c2 c3).length)
    (h3 : (decodeWord c0 c1 c2 c3).length < 3) :
    ITBase64DecodedDataCreate s =
      (some (groupBytes g ++ decodeWord c0 c1 c2 c3),
       (groupBytes g ++ decodeWord c0 c1 c2 c3).length) := by
  have hgm := allGroups3_mod g hg
  have hmod : (g ++ c0 :: c1 :: c2 :: c3 :: rest).length % 4 = 0 := by
    simp only [List.length_append, List.length_cons]
    omega
  have hne : g ++ c0 :: c1 :: c2 :: c3 :: rest ≠ [] := by simp
  have hloop := decodeLoop_append_short g c0 c1 c2 c3 rest hg h1 h3
  unfold ITBase64DecodedDataCreate
  rw [hsplit, if_neg (not_not_intro hmod), if_neg hne, hloop]

/-- C2 witness: the text TWFuTQ==AAAA, a full group, then an early padding
group, then 4 more characters, decodes to the 4 bytes of the first two
groups as a success. -/
theorem early_padding_truncates_C2_witness :
    ITBase64DecodedDataCreate "TWFuTQ==AAAA".toList =
      (some (groupBytes "TWFu".toList ++ decodeWord 'T' 'Q' '=' '='),
       (groupBytes "TWFu".toList ++ decodeWord 'T' 'Q' '=' '=').length) :=
  early_padding_truncates_C2_amended "TWFuTQ==AAAA".toList "TWFu".toList 'T' 'Q' '=' '='
    "AAAA".toList (by decide) (by decide) (by decide) (by decide) (by decide)

/-- C3 counterexample: the claim states that a final group of exactly 2
real bytes has only its 4th output character overwritten with '='; but for
the bytes 0x00 0x00 (third byte zero-padded) the computed 3rd character is
'A', so encodeWord overwrites both the 3rd and the 4th characters,
producing AA== instead of AAA=. -/
theorem pad2_overwrite_C3_cex :
    encodeWord 0 0 0 true = ['A', 'A', '=', '='] ∧
    encodeWord 0 0 0 true ≠ ['A', 'A', 'A', '='] := by decide

/-- C3 amended: for a final group of exactly 2 real bytes whose second
byte has a nonzero low nibble (so the computed 3rd output character is not
'A'), encodeWord with the final flag set overwrites only the 4th output
character with '=', leaving the first three characters as the
alphabet-table symbols of the computed 6-bit groups.  When the low nibble
of the second byte is zero the encoder instead overwrites both the 3rd and
4th characters, as the counterexample shows. -/
theorem pad2_overwrite_C3_amended (b0 b1 : Nat) (hb0 : b0 < 256) (hb1 : b1 < 256)
    (hnib : b1 % 16 ≠ 0) :
    encodeWord b0 b1 0 true =
      [encChar ((b0 &&& 0xFC) >>> 2),
       encChar (((b0 &&& 0x03) <<< 4) ||| ((b1 &&& 0xF0) >>> 4)),
       encChar ((b1 &&& 0x0F) <<< 2),
       '='] := by
  have key : ∀ b < 256, b % 16 ≠ 0 →
      encChar (((b &&& 0x0F) <<< 2) ||| ((0 &&& 0xC0) >>> 6)) ≠ 'A' ∧
      ((b &&& 0x0F) <<< 2) ||| ((0 &&& 0xC0) >>> 6) = (b &&& 0x0F) <<< 2 := by decide
  obtain ⟨hne, hidx⟩ := key b1 hb1 hnib
  simp only [encodeWord]
  rw [if_neg (fun hc => hne hc.1), if_pos ⟨by decide, trivial⟩, hidx]

/-- C3 witness: the final group with the 2 real bytes 0x00 0x01 is encoded
with exactly one padding character. -/
theorem pad2_overwrite_C3_witness :
    encodeWord 0 1 0 true =
      [encChar ((0 &&& 0xFC) >>> 2),
       encChar (((0 &&& 0x03) <<< 4) ||| ((1 &&& 0xF0) >>> 4)),
       encChar ((1 &&& 0x0F) <<< 2),
       '='] :=
  pad2_overwrite_C3_amended 0 1 (by decide) (by decide) (by decide)

/-- C4 counterexample: the claim states that decoding the empty text
succeeds with a zero-length buffer; in fact the decode of the empty text
is the failure signal (the C function returns NULL with *dataLength = 0,
because bytesDecoded keeps its initial value 0 and the error branch is
taken). -/
theorem decode_empty_C4_cex :
    ITBase64DecodedDataCreate ([] : List Char) = (none, 0) ∧
    (ITBase64DecodedDataCreate ([] : List Char)).1 ≠ some [] := by decide

/-- C4 amended: decoding a text whose whitespace-stripped form is empty
(the empty text or an all-whitespace text) returns the failure signal with
reported length 0, the same signal as for corrupt input, not a success. -/
theorem decode_empty_C4_amended (s : List Char)
    (h : whiteSpaceFreeStringCreate s = []) :
    ITBase64DecodedDataCreate s = (none, 0) := by
  unfold ITBase64DecodedDataCreate
  rw [h]
  simp

/-- C4 witness: an all-whitespace text decodes to the failure signal. -/
theorem decode_empty_C4_witness :
    ITBase64DecodedDataCreate ['\n', ' '] = (none, 0) :=
  decode_empty_C4_amended ['\n', ' '] (by decide)

/-- C5: encoding never fails (it is a total function in this embedding,
as in the C code, which has no error path) and produces a text of exactly
4 * ceil(L/3) characters for a buffer of length L; the empty buffer
encodes to the empty text. -/
theorem encode_total_length_C5 (b : List Nat) :
    (ITBase64EncodedStringCreate b).length = 4 * ((b.length + 2) / 3) ∧
    ITBase64EncodedStringCreate [] = [] := by
  refine ⟨?_, rfl⟩
  induction b using ITBase64EncodedStringCreate.induct with
  | case1 b0 b1 b2 rest ih =>
      simp only [ITBase64EncodedStringCreate, List.length_append, encodeWord_length,
        List.length_cons, ih]
      omega
  | case2 b0 => simp [ITBase64EncodedStringCreate, encodeWord_length]
  | case3 b0 b1 => simp [ITBase64EncodedStringCreate, encodeWord_length]
  | case4 => rfl

/-- C6: a text whose whitespace-stripped length is positive and not a
multiple of 4 fails to decode: the failure signal is returned with
reported length 0. -/
theorem decode_bad_length_C6 (s : List Char)
    (hpos : 0 < (whiteSpaceFreeStringCreate s).length)
    (hmod : (whiteSpaceFreeStringCreate s).length % 4 ≠ 0) :
    ITBase64DecodedDataCreate s = (none, 0) := by
  unfold ITBase64DecodedDataCreate
  rw [if_pos hmod]

/-- C6 witness: a single padding character has stripped length 1, which is
positive and not a multiple of 4, and fails to decode. -/
theorem decode_bad_length_C6_witness :
    ITBase64DecodedDataCreate ['='] = (none, 0) :=
  decode_bad_length_C6 ['='] (by decide) (by decide)

/-- C7: when, processing the whitespace-stripped text left to right, the
decoder reaches a 4-character group that decodes to 0 bytes (an invalid
character), the whole decode aborts with the failure signal and reported
length 0; no partial output is returned.  Reaching the group means every
group before it decoded to the full 3 bytes. -/
theorem decode_invalid_group_aborts_C7 (s g : List Char) (c0 c1 c2 c3 : Char)
    (rest : List Char)
    (hsplit : whiteSpaceFreeStringCreate s = g ++ c0 :: c1 :: c2 :: c3 :: rest)
    (hg : allGroups3 g = true)
    (hrest : rest.length % 4 = 0)
    (h0 : decodeWord c0 c1 c2 c3 = []) :
    ITBase64DecodedDataCreate s = (none, 0) := by
  have hgm := allGroups3_mod g hg
  have hmod : (g ++ c0 :: c1 :: c2 :: c3 :: rest).length % 4 = 0 := by
    simp only [List.length_append, List.length_cons]
    omega
  have hne : g ++ c0 :: c1 :: c2 :: c3 :: rest ≠ [] := by simp
  have hloop := decodeLoop_append_none g c0 c1 c2 c3 rest hg h0
  unfold ITBase64DecodedDataCreate
  rw [hsplit, if_neg (not_not_intro hmod), if_neg hne, hloop]

/-- C7 witness: the text TWFu!!!! has a valid first group and an invalid
second group, and its decode is the failure signal with length 0. -/
theorem decode_invalid_group_aborts_C7_witness :
    ITBase64DecodedDataCreate "TWFu!!!!".toList = (none, 0) :=
  decode_invalid_group_aborts_C7 "TWFu!!!!".toList "TWFu".toList '!' '!' '!' '!' []
    (by decide) (by decide) (by decide) (by decide)

/-- C8: inserting whitespace characters (space, tab, carriage return,
newline) at arbitrary positions of a text does not change its decode,
since the decoder first removes all whitespace. -/
theorem decode_whitespace_insensitive_C8 (t u : List Char) (h : InsertWS t u) :
    ITBase64DecodedDataCreate u = ITBase64DecodedDataCreate t := by
  unfold ITBase64DecodedDataCreate
  rw [insertWS_strip h]

/-- C8 witness: the text TWFu with a newline inserted before its last
character decodes exactly as TWFu does. -/
theorem decode_whitespace_insensitive_C8_witness :
    ITBase64DecodedDataCreate ['T', 'W', 'F', '\n', 'u'] =
      ITBase64DecodedDataCreate ['T', 'W', 'F', 'u'] :=
  decode_whitespace_insensitive_C8 ['T', 'W', 'F', 'u'] ['T', 'W', 'F', '\n', 'u']
    (InsertWS.keep 'T' (InsertWS.keep 'W' (InsertWS.keep 'F'
      (InsertWS.ws '\n' rfl (InsertWS.keep 'u' InsertWS.nil)))))

/-- C9: the word decoder of the code behaves exactly as the specification
describes it: decodeWord, the embedding of the C function, coincides with
decodeWordSpec, written from the words of the specification.  The masks
0x30 and 0x3c the C applies before shifting are redundant because the
looked up values are 6-bit values whenever they are not the sentinel. -/
theorem decodeWord_refines_spec_C9 (c0 c1 c2 c3 : Char) :
    decodeWord c0 c1 c2 c3 = decodeWordSpec c0 c1 c2 c3 := by
  unfold decodeWord decodeWordSpec
  split_ifs with h1 h2 h3 h4 h5
  · rfl
  · have hc1 : charToByte c1 < 64 := charToByte_lt _ (fun he => h1 (Or.inr he))
    rw [and48_shift _ hc1]
  · rfl
  · have hc1 : charToByte c1 < 64 := charToByte_lt _ (fun he => h1 (Or.inr he))
    have hc2 : charToByte c2 < 64 := charToByte_lt _ h3
    rw [and48_shift _ hc1, and60_shift _ hc2]
  · rfl
  · have hc1 : charToByte c1 < 64 := charToByte_lt _ (fun he => h1 (Or.inr he))
    have hc2 : charToByte c2 < 64 := charToByte_lt _ h3
    rw [and48_shift _ hc1, and60_shift _ hc2]

/-- C10: the inverse alphabet lookup maps '=' to the 6-bit value 0 rather
than to the 0xff sentinel, so '=' in the data positions 0 and 1 of a group
is accepted as the value 0: decoding the text ==== succeeds with the
single byte 0x00 and reported length 1. -/
theorem equals_char_maps_to_zero_C10 :
    charToByte '=' = 0 ∧
    ITBase64DecodedDataCreate "====".toList = (some [0], 1) := by decide
